import Mathlib

namespace GlowRT

/-!
Verification development for the glow host runtime (Partitioner, HostManager,
RuntimeTypes).  Each definition is a shallow embedding of the corresponding
C++ entity; theorems settle the spec claims against these embeddings.
-/

/-! Embedding of `DAGNode` from RuntimeTypes.h, restricted to the fields
`getNextDevice` touches.  `currentDeviceIdx` is a C++ `unsigned`, so its
increment wraps modulo 2^32. -/

def UNSIGNED_MOD : Nat := 4294967296

structure DAGNodeDev where
  deviceIDs : List Nat
  currentDeviceIdx : Nat
deriving DecidableEq, Repr

/-- Embedding of `DAGNode::getNextDevice`:
`currentDeviceIdx++; return deviceIDs[currentDeviceIdx % deviceIDs.size()];`.
The increment happens before the read.  Returns the chosen device id and the
updated node. -/
def DAGNodeDev.getNextDevice (n : DAGNodeDev) : Nat × DAGNodeDev :=
  let idx := (n.currentDeviceIdx + 1) % UNSIGNED_MOD
  (n.deviceIDs.getD (idx % n.deviceIDs.length) 0, { n with currentDeviceIdx := idx })

/-! Embedding of `HostManager::InferRequest` and the inference queue
(HostManager.h).  The queue is a `std::priority_queue` over
`std::greater<InferRequest>`, i.e. a min-heap for `operator>`; popping always
removes a minimal element under `operator>`. -/

structure InferRequest where
  priority : Nat
  requestID : Nat
deriving DecidableEq, Repr

/-- Embedding of `InferRequest::operator>`: on equal priority compare
`requestID`, otherwise compare `priority`. -/
def InferRequest.gtOp (a b : InferRequest) : Bool :=
  if a.priority = b.priority then decide (b.requestID < a.requestID)
  else decide (b.priority < a.priority)

/-- Remove a minimal element (under `InferRequest.gtOp`) from the nonempty
queue `x :: xs`; returns the minimum and the remaining elements.  This is the
observable effect of one `pop` on the min-heap `inferQueue_`. -/
def popMinQ : InferRequest → List InferRequest → InferRequest × List InferRequest
  | x, [] => (x, [])
  | x, y :: ys =>
    match popMinQ y ys with
    | (m, rest) => if InferRequest.gtOp x m then (m, x :: rest) else (x, m :: rest)

/-- Repeatedly pop the minimum; `fuel` bounds the recursion by the queue
length. -/
def drainAux : Nat → List InferRequest → List InferRequest
  | 0, _ => []
  | _ + 1, [] => []
  | n + 1, x :: xs => (popMinQ x xs).1 :: drainAux n (popMinQ x xs).2

/-- The order in which the inference queue hands out its requests: pop the
minimal element (w.r.t. `operator>`) until the queue is empty. -/
def drainQueue (q : List InferRequest) : List InferRequest := drainAux q.length q

/-! Embedding of `DeviceInfo` (RuntimeTypes.h).  The four `float` bandwidth
and compute fields are only ever copied by the code the claims cover, never
computed with, so they are modelled as opaque numeric values. -/

structure DeviceInfo where
  availableMemory : Nat
  backendName : String
  nonSupportedNodes : String
  supportedNodes : String
  sramCapacity : Nat
  peakCompute : Nat
  peakDramBw : Nat
  peakSramBw : Nat
  peakPCIeBw : Nat
deriving DecidableEq, Repr

/-- Embedding of `PartitionConfig` (RuntimeTypes.h), restricted to the fields
the claims touch. -/
structure PartitionConfig where
  funcName : String
  numOfPartitions : Nat
  backendNames : List String
  partitionNames : List String
deriving DecidableEq, Repr

/-- Embedding of `PartitionConfig::enabled`: `numOfPartitions > 0`. -/
def PartitionConfig.enabled (c : PartitionConfig) : Bool := decide (0 < c.numOfPartitions)

/-- Embedding of the `multiBackendNames_` computation in `Partitioner::init`:
true iff some `deviceInfo_[i]` (`i ≥ 1`) has a backend name different from
`deviceInfo_[0]`. -/
def multiBackendNames (deviceInfo : List DeviceInfo) : Bool :=
  match deviceInfo with
  | [] => false
  | d0 :: rest => rest.any (fun d => d.backendName != d0.backendName)

/-- Embedding of `QuantizationMode` (CompilationContext.h). -/
inductive QuantizationMode where
  | None
  | Quantize
  | Profile
deriving DecidableEq, Repr, Fintype

/-- The four partitioning flows `Partitioner::partition` can dispatch to. -/
inductive PartitionModeSel where
  | fromConfig
  | profiling
  | loadBalanced
  | heterogeneous
deriving DecidableEq, Repr

/-- Embedding of the dispatch in `Partitioner::partition`: user-defined config
first, then profiling, then load-balance (single backend name and flag set),
else heterogeneous. -/
def partitionModeSelect (cfg : PartitionConfig) (quantMode : QuantizationMode)
    (multiBackend : Bool) (loadBalanceFlag : Bool) : PartitionModeSel :=
  if cfg.enabled then .fromConfig
  else if quantMode = .Profile then .profiling
  else if !multiBackend && loadBalanceFlag then .loadBalanced
  else .heterogeneous

/-- Embedding of the guard at the top of `Partitioner::loadBalancedPartition`:
with multiple backend names it calls `heterogeneousPartition` instead. -/
def loadBalancedDelegates (multiBackend : Bool) : PartitionModeSel :=
  if multiBackend then .heterogeneous else .loadBalanced

/-- Shared helper for `Partitioner::saturateHost`: the logical-device list of
one `DAGNode` after one saturation pass.  The new ids are, for each existing
`logical` id and each iterator `i ∈ [1, duplications)`,
`logical + i * logicalDeviceCount`, appended after the existing ids. -/
def saturatedDevices (duplications logicalDeviceCount : Nat) (lds : List Nat) : List Nat :=
  lds ++ lds.flatMap (fun logical =>
    (List.range' 1 (duplications - 1)).map (fun i => logical + i * logicalDeviceCount))

/-- Embedding of a `DAGNode` as seen by `saturateHost`: only its
`logicalDevices` vector matters there. -/
structure SatDAGNode where
  logicalDevices : List Nat
deriving DecidableEq, Repr

/-- Embedding of `Partitioner::saturateHost`.  `partitions` is the list of
DAGs, each represented by its `nodes` vector (the root is stored separately in
`DAG` and is not visited).  `duplications = deviceInfo_.size() /
logicalDeviceCount`; below 2 nothing changes, otherwise every node's
`logicalDevices` is extended. -/
def saturateHost (deviceCount logicalDeviceCount : Nat)
    (partitions : List (List SatDAGNode)) : List (List SatDAGNode) :=
  let duplications := deviceCount / logicalDeviceCount
  if duplications < 2 then partitions
  else partitions.map (fun network => network.map (fun node =>
    { logicalDevices := saturatedDevices duplications logicalDeviceCount node.logicalDevices }))

/-! Embedding of the per-node backend selection in
`Partitioner::backendBasedPartition` (Partitioner.cpp).  Operator kinds are
dense naturals; a `Backend` collaborator exposes `shouldLower` and
`isOpSupported` as opaque boolean predicates; the supported / non-supported
kind sets come from the `backendMap_` entry for the backend's name. -/

structure NodeK where
  kind : Nat
deriving DecidableEq, Repr

structure BackendM where
  name : String
  shouldLowerP : NodeK → Bool
  isOpSupportedP : NodeK → Bool

structure BackendKindInfo where
  nonSupportedNodesKinds : List Nat
  supportedNodesKinds : List Nat
deriving DecidableEq, Repr

/-- The three acceptance conditions of `backendBasedPartition`, conjoined:
kind not blacklisted, whitelist empty or containing the kind, and the backend
lowers the node or reports it supported. -/
def backendAccepts (bmap : String → BackendKindInfo) (b : BackendM) (N : NodeK) : Bool :=
  !((bmap b.name).nonSupportedNodesKinds.contains N.kind) &&
  ((bmap b.name).supportedNodesKinds.isEmpty ||
    (bmap b.name).supportedNodesKinds.contains N.kind) &&
  (b.shouldLowerP N || b.isOpSupportedP N)

/-- Embedding of the inner backend loop of `backendBasedPartition`: walk the
backends in declared order; `continue` past a backend whose blacklist holds
the node's kind, whose non-empty whitelist misses it, or which neither lowers
nor supports the node; stop at the first acceptable backend. -/
def chooseBackend (bmap : String → BackendKindInfo) :
    List BackendM → NodeK → Option BackendM
  | [], _ => none
  | b :: bs, N =>
    if (bmap b.name).nonSupportedNodesKinds.contains N.kind then chooseBackend bmap bs N
    else if !(bmap b.name).supportedNodesKinds.isEmpty &&
        !((bmap b.name).supportedNodesKinds.contains N.kind) then chooseBackend bmap bs N
    else if b.shouldLowerP N || b.isOpSupportedP N then some b
    else chooseBackend bmap bs N

inductive PartErr where
  | NodeNotSupported
deriving DecidableEq, Repr

/-- Embedding of the outer node loop of `backendBasedPartition`: assign each
node its chosen backend name, failing at the first node no backend accepts
(the `RETURN_ERR_IF_NOT` directly after the backend loop). -/
def assignBackends (bmap : String → BackendKindInfo) (backends : List BackendM) :
    List NodeK → Except PartErr (List (NodeK × String))
  | [] => .ok []
  | N :: ns =>
    match chooseBackend bmap backends N with
    | some b =>
      match assignBackends bmap backends ns with
      | .ok rest => .ok ((N, b.name) :: rest)
      | .error e => .error e
    | none => .error .NodeNotSupported

/-- A `backendMap_` entry with empty supported and non-supported sets, as a
default-constructed `BackendInfo` would have. -/
def emptyKindInfo : BackendKindInfo :=
  { nonSupportedNodesKinds := [], supportedNodesKinds := [] }

/-- A sample backend named "A" that lowers every node. -/
def lowerAllBackend : BackendM :=
  { name := "A", shouldLowerP := fun _ => true, isOpSupportedP := fun _ => false }

/-! Embedding of `CompilationContext` and `CompilationContext::verify`
(CompilationContext.h).  The `bindings` and `loweredInfoMap` pointers are
modelled by whether they are set.  The first `RETURN_ERR_IF_NOT` (whitelist
check) passes only a message; its default error code lives in Support/Error.h,
which is not part of this tree, so that code is modelled from the spec as
`CompileContextMalformed`; the three quantization checks pass
`COMPILE_CONTEXT_MALFORMED` explicitly in the source. -/

structure PrecisionConfiguration where
  quantMode : QuantizationMode
  convertToFP16 : Bool
  convertFusedToFP16 : Bool
  clipFP16 : Bool
  useSetAsWhitelist : Bool
deriving DecidableEq, Repr, Fintype

inductive GlowErrCode where
  | CompileContextMalformed
deriving DecidableEq, Repr, Fintype

instance {ε α : Type} [DecidableEq ε] [DecidableEq α] : DecidableEq (Except ε α) :=
  fun a b =>
    match a, b with
    | .ok x, .ok y =>
      match decEq x y with
      | isTrue h => isTrue (h ▸ rfl)
      | isFalse h => isFalse (fun hh => h (Except.ok.inj hh))
    | .ok _, .error _ => isFalse (fun hh => Except.noConfusion hh)
    | .error _, .ok _ => isFalse (fun hh => Except.noConfusion hh)
    | .error e1, .error e2 =>
      match decEq e1 e2 with
      | isTrue h => isTrue (h ▸ rfl)
      | isFalse h => isFalse (fun hh => h (Except.error.inj hh))

structure CompilationContext where
  bindings : Bool
  loweredInfoMap : Bool
  precisionConfig : PrecisionConfiguration
deriving DecidableEq, Repr, Fintype

/-- Embedding of `CompilationContext::verify`, check for check in source
order. -/
def CompilationContext.verify (cctx : CompilationContext) : Except GlowErrCode Unit :=
  if !(!cctx.precisionConfig.useSetAsWhitelist || cctx.precisionConfig.convertToFP16) then
    .error .CompileContextMalformed
  else
    match cctx.precisionConfig.quantMode with
    | .Profile =>
      if !cctx.bindings then .error .CompileContextMalformed
      else if !cctx.loweredInfoMap then .error .CompileContextMalformed
      else if cctx.precisionConfig.convertToFP16 then .error .CompileContextMalformed
      else .ok ()
    | .Quantize =>
      if !cctx.loweredInfoMap then .error .CompileContextMalformed
      else .ok ()
    | .None => .ok ()

/-- A Profile-mode compilation context with `bindings` and `loweredInfoMap`
unset, used as a concrete malformed context. -/
def profileNoBindingsCtx : CompilationContext where
  bindings := false
  loweredInfoMap := false
  precisionConfig :=
    { quantMode := .Profile
      convertToFP16 := false
      convertFusedToFP16 := false
      clipFP16 := false
      useSetAsWhitelist := false }

/-! Embedding of `Partitioner::selectPartitions` (Partitioner.cpp).  Nodes
are abstract (`ν`), the external `updateGraphMemInfoByAddingNode` and
`GraphMemInfo::getTotalMemSize` (PartitionerUtils, outside this tree) are
abstract parameters `upd` and `total`, and the partition counter `color`
doubles as the `_part<k>` suffix of the created sub-Function. -/

structure SelState (ν μ : Type) where
  color : Nat
  currentPartition : List ν
  graphMem : μ
  assignments : List (ν × Nat)

variable {ν μ : Type}

/-- One iteration of the node loop in `selectPartitions`: tentatively recompute
the memory with `N` added; on overflow create partition `color + 1`, clear the
node set and recompute `N` against an empty partition; then record `N` in the
current partition. -/
def selStep (avail : Nat) (upd : List ν → μ → ν → μ) (total : μ → Nat) (emptyMem : μ)
    (st : SelState ν μ) (N : ν) : SelState ν μ :=
  let g := upd st.currentPartition st.graphMem N
  if avail < total g then
    { color := st.color + 1
      currentPartition := [N]
      graphMem := upd [] emptyMem N
      assignments := st.assignments ++ [(N, st.color + 1)] }
  else
    { color := st.color
      currentPartition := N :: st.currentPartition
      graphMem := g
      assignments := st.assignments ++ [(N, st.color)] }

/-- The state at the top of the node loop: partition `<F>_part1` has already
been created (`color = 1`), with an empty node set and memory tally. -/
def selInitState (emptyMem : μ) : SelState ν μ :=
  { color := 1, currentPartition := [], graphMem := emptyMem, assignments := [] }

/-- Embedding of `selectPartitions`: walk the BFS levels from the last (the
leaves) down to level 0, each level in order, threading the loop state. -/
def selectPartitions (avail : Nat) (upd : List ν → μ → ν → μ) (total : μ → Nat)
    (emptyMem : μ) (bfs : List (List ν)) : SelState ν μ :=
  (bfs.reverse.flatten).foldl (selStep avail upd total emptyMem) (selInitState emptyMem)

/-! Embedding of `Partitioner::createDAGWithoutPartition` and the
single-backend fast path of `Partitioner::heterogeneousPartition`
(Partitioner.cpp).  A DAG keeps its synthetic root separately from the `nodes`
vector, exactly as `struct DAG` does; `saturateHost` iterates `network.nodes`
only, so the root is never saturated. -/

structure CDAGNode where
  name : String
  backendName : String
  logicalDevices : List Nat
deriving DecidableEq, Repr

structure CDAG where
  root : CDAGNode
  nodes : List CDAGNode
deriving DecidableEq, Repr

/-- `Partitioner::saturateHost` acting on full DAGs: the loop
`for (network : partitions) for (node : network.nodes)` touches only the
`nodes` vectors, never the roots. -/
def saturateHostDAG (deviceCount logicalDeviceCount : Nat) (dags : List CDAG) :
    List CDAG :=
  let duplications := deviceCount / logicalDeviceCount
  if duplications < 2 then dags
  else dags.map (fun g =>
    { g with nodes := g.nodes.map (fun nd =>
        { nd with logicalDevices :=
            saturatedDevices duplications logicalDeviceCount nd.logicalDevices }) })

/-- Embedding of `createDAGWithoutPartition`: for every Function of the module
build a root node (function name, empty backend name, `logicalDevices = {0}`)
with a single child (same name, the chosen backend, `logicalDevices = {0}`);
afterwards, if `saturateHost_` is set, run `saturateHost(1, partitions)`. -/
def createDAGWithoutPartition (backendName : String) (functionNames : List String)
    (saturateFlag : Bool) (deviceCount : Nat) : List CDAG :=
  let partitions := functionNames.map (fun fname =>
    { root := { name := fname, backendName := "", logicalDevices := [0] }
      nodes := [{ name := fname, backendName := backendName, logicalDevices := [0] }] })
  if saturateFlag then saturateHostDAG deviceCount 1 partitions else partitions

/-- Embedding of the fast-path guard in `heterogeneousPartition`:
`backends.size() == 1 && memSize_ < backendMap_[backendName].memSize`. -/
def heterogeneousNoPartitionGuard (backendCount memSize backendMemSize : Nat) : Bool :=
  backendCount == 1 && decide (memSize < backendMemSize)

/-! Embedding of the function lookup at the top of
`Partitioner::partitionFromConfig` (Partitioner.cpp).  The module is
represented by its list of Function names. -/

/-- Embedding of `Module::getFunction`: the Function with the given name, if
any. -/
def getFunction (functions : List String) (name : String) : Option String :=
  functions.find? (fun f => f == name)

/-- Models the guard `RETURN_ERR_IF_NOT(F, strFormat("Can't find function %s
in current module.", F->getName().str().data()))` in `partitionFromConfig`.
When the function exists the flow proceeds; when it does not, the error branch
itself evaluates `F->getName()` with `F == nullptr`, so it has no defined
result — modelled as `none` — instead of producing the intended
FunctionNotFound-style error. -/
def partitionFromConfigLookup (functions : List String) (cfg : PartitionConfig) :
    Option (Except PartErr String) :=
  match getFunction functions cfg.funcName with
  | some F => some (.ok F)
  | none => none

/-! Embedding of `Partitioner::genBackendMap` (Partitioner.cpp).  The
`std::map<std::string, BackendInfo>` is modelled by its lookup function; the
external `generateNodeKindsSet` (PartitionerUtils, outside this tree) is an
abstract parameter `gen`.  `BackendInfo` carries the fields `genBackendMap`
fills (the `Backend*` pointer is omitted). -/

structure BackendInfo where
  num : Nat
  memSize : Nat
  sramCapacity : Nat
  peakCompute : Nat
  peakDramBw : Nat
  peakSramBw : Nat
  nonSupportedNodesKinds : List Nat
  supportedNodesKinds : List Nat
deriving DecidableEq, Repr

/-- The `BackendInfo` built at the first occurrence of a backend name:
`num = 1` and every other field copied from that `DeviceInfo`. -/
def mkBackendInfo (gen : String → List Nat) (d : DeviceInfo) : BackendInfo :=
  { num := 1
    memSize := d.availableMemory
    sramCapacity := d.sramCapacity
    peakCompute := d.peakCompute
    peakDramBw := d.peakDramBw
    peakSramBw := d.peakSramBw
    nonSupportedNodesKinds := gen d.nonSupportedNodes
    supportedNodesKinds := gen d.supportedNodes }

/-- One iteration of the device loop in `genBackendMap`: a new backend name
inserts a fresh `BackendInfo`, a known one only bumps `num`. -/
def genStepF (gen : String → List Nat) (acc : String → Option BackendInfo)
    (d : DeviceInfo) : String → Option BackendInfo :=
  match acc d.backendName with
  | some info =>
    fun b => if b = d.backendName then some { info with num := info.num + 1 } else acc b
  | none =>
    fun b => if b = d.backendName then some (mkBackendInfo gen d) else acc b

/-- Embedding of `genBackendMap` as the lookup function of the resulting
`backendMap`. -/
def genBackendMap (gen : String → List Nat) (devices : List DeviceInfo) :
    String → Option BackendInfo :=
  devices.foldl (genStepF gen) (fun _ => none)

/-- A sample device of backend "A" with 10 bytes of memory. -/
def devA10 : DeviceInfo :=
  { availableMemory := 10
    backendName := "A"
    nonSupportedNodes := ""
    supportedNodes := ""
    sramCapacity := 1
    peakCompute := 2
    peakDramBw := 3
    peakSramBw := 4
    peakPCIeBw := 5 }

/-- A second device of backend "A" whose fields all differ from `devA10`. -/
def devA99 : DeviceInfo :=
  { availableMemory := 99
    backendName := "A"
    nonSupportedNodes := "Add"
    supportedNodes := "Div"
    sramCapacity := 91
    peakCompute := 92
    peakDramBw := 93
    peakSramBw := 94
    peakPCIeBw := 95 }

/-- A user-defined partition config with two partitions (so `enabled()`). -/
def cfgTwoParts : PartitionConfig :=
  { funcName := "f", numOfPartitions := 2, backendNames := ["A", "B"],
    partitionNames := ["p0", "p1"] }

/-- A default partition config (`numOfPartitions = 0`, so not `enabled()`). -/
def cfgDisabled : PartitionConfig :=
  { funcName := "f", numOfPartitions := 0, backendNames := [], partitionNames := [] }

theorem gtOp_eq_true_iff {a b : InferRequest} :
    a.gtOp b = true ↔
      (b.priority < a.priority ∨ (a.priority = b.priority ∧ b.requestID < a.requestID)) := by
  unfold InferRequest.gtOp
  by_cases hp : a.priority = b.priority <;> simp [hp] <;> omega

theorem gtOp_eq_false_iff {a b : InferRequest} :
    a.gtOp b = false ↔
      (a.priority < b.priority ∨ (a.priority = b.priority ∧ a.requestID ≤ b.requestID)) := by
  unfold InferRequest.gtOp
  by_cases hp : a.priority = b.priority <;> simp [hp] <;> omega

theorem gtOp_asymm {a b : InferRequest} (h : a.gtOp b = true) : b.gtOp a = false := by
  rw [gtOp_eq_true_iff] at h
  rw [gtOp_eq_false_iff]
  omega

theorem gtOp_le_trans {a b c : InferRequest} (h1 : a.gtOp b = false) (h2 : b.gtOp c = false) :
    a.gtOp c = false := by
  rw [gtOp_eq_false_iff] at *
  omega

theorem popMinQ_perm (x : InferRequest) (xs : List InferRequest) :
    List.Perm ((popMinQ x xs).1 :: (popMinQ x xs).2) (x :: xs) := by
  induction xs generalizing x with
  | nil => simp [popMinQ]
  | cons y ys ih =>
    have ihy := ih y
    simp only [popMinQ]
    cases hp : popMinQ y ys with
    | mk m rest =>
      rw [hp] at ihy
      by_cases hg : InferRequest.gtOp x m
      · simp only [hg, if_true]
        exact List.Perm.trans (List.Perm.swap _ _ _) (List.Perm.cons x ihy)
      · simp only [hg, if_false]
        exact List.Perm.cons x ihy

theorem popMinQ_min (x : InferRequest) (xs : List InferRequest) :
    ∀ z ∈ (popMinQ x xs).2, (popMinQ x xs).1.gtOp z = false := by
  induction xs generalizing x with
  | nil => simp [popMinQ]
  | cons y ys ih =>
    have ihy := ih y
    simp only [popMinQ]
    cases hp : popMinQ y ys with
    | mk m rest =>
      rw [hp] at ihy
      by_cases hg : InferRequest.gtOp x m
      · simp only [hg, if_true]
        intro z hz
        rcases List.mem_cons.mp hz with h | h
        · subst h; exact gtOp_asymm hg
        · exact ihy z h
      · simp only [hg, if_false]
        have hxm : x.gtOp m = false := by
          simpa using hg
        intro z hz
        rcases List.mem_cons.mp hz with h | h
        · subst h; exact hxm
        · exact gtOp_le_trans hxm (ihy z h)

theorem popMinQ_length (x : InferRequest) (xs : List InferRequest) :
    (popMinQ x xs).2.length = xs.length := by
  have h := (popMinQ_perm x xs).length_eq
  simpa using h

theorem drainAux_perm : ∀ (n : Nat) (q : List InferRequest), q.length = n →
    List.Perm (drainAux n q) q := by
  intro n
  induction n with
  | zero =>
    intro q hq
    cases q with
    | nil => simp [drainAux]
    | cons x xs => simp at hq
  | succ n ih =>
    intro q hq
    cases q with
    | nil => simp at hq
    | cons x xs =>
      simp only [drainAux]
      have hlen : (popMinQ x xs).2.length = n := by
        have := popMinQ_length x xs
        simp at hq
        omega
      have hperm := ih (popMinQ x xs).2 hlen
      exact List.Perm.trans (List.Perm.cons _ hperm) (popMinQ_perm x xs)

theorem drainAux_sorted : ∀ (n : Nat) (q : List InferRequest), q.length = n →
    List.Pairwise (fun a b => a.gtOp b = false) (drainAux n q) := by
  intro n
  induction n with
  | zero => intro q hq; simp [drainAux]
  | succ n ih =>
    intro q hq
    cases q with
    | nil => simp at hq
    | cons x xs =>
      simp only [drainAux]
      have hlen : (popMinQ x xs).2.length = n := by
        have := popMinQ_length x xs
        simp at hq
        omega
      refine List.pairwise_cons.mpr ⟨?_, ih (popMinQ x xs).2 hlen⟩
      intro z hz
      have hz2 : z ∈ (popMinQ x xs).2 :=
        (drainAux_perm n (popMinQ x xs).2 hlen).mem_iff.mp hz
      exact popMinQ_min x xs z hz2

/-- C2: the inference queue (a `std::greater` min-heap keyed by
`InferRequest::operator>`) dequeues requests in ascending order of
`(priority, requestID)`: the drained sequence is a permutation of the queue
contents, pairwise ordered so that lower priority comes first and, on equal
priority, lower `requestID` (earlier submission) comes first; moreover the
comparator `operator>` is exactly the lexicographic strict order on
`(priority, requestID)`. -/
theorem inferQueue_priority_order (q : List InferRequest) :
    List.Perm (drainQueue q) q ∧
    List.Pairwise (fun r1 r2 =>
      r1.priority < r2.priority ∨
        (r1.priority = r2.priority ∧ r1.requestID ≤ r2.requestID)) (drainQueue q) ∧
    (∀ r1 r2 : InferRequest, r1.gtOp r2 = true ↔
      (r2.priority < r1.priority ∨ (r1.priority = r2.priority ∧ r2.requestID < r1.requestID))) := by
  refine ⟨drainAux_perm q.length q rfl, ?_, ?_⟩
  · exact (drainAux_sorted q.length q rfl).imp (fun h => gtOp_eq_false_iff.mp h)
  · intro r1 r2
    unfold InferRequest.gtOp
    by_cases hp : r1.priority = r2.priority <;> simp [hp] <;> omega

/-- C1 (counterexample): on a freshly provisioned node (`currentDeviceIdx = 0`)
with `deviceIDs = [10, 20]`, `getNextDevice` returns `20` — the element at
index `1`, not `deviceIDs[0 mod 2] = 10` as the claim states, because the
increment happens before the read. -/
theorem getNextDevice_counterexample :
    (DAGNodeDev.getNextDevice { deviceIDs := [10, 20], currentDeviceIdx := 0 }).1 = 20 ∧
    ([10, 20] : List Nat).getD (0 % 2) 0 = 10 ∧ (20 : Nat) ≠ 10 := by
  refine ⟨?_, by decide, by decide⟩
  rfl

/-- C1 (amended): for a `DAGNode` with non-empty `deviceIDs`, `getNextDevice`
first increments `currentDeviceIdx` (wrapping modulo 2^32, as it is a C++
`unsigned`) and then returns `deviceIDs[(i + 1) mod 2^32 mod deviceIDs.size()]`
where `i` is the value of `currentDeviceIdx` immediately before the call;
afterwards `currentDeviceIdx = (i + 1) mod 2^32`.  In particular the first
call on a freshly provisioned node returns `deviceIDs[1 mod deviceIDs.size()]`
(the second replica when there are at least two, `deviceIDs[0]` only when
there is exactly one). -/
theorem getNextDevice_spec (n : DAGNodeDev) (h : n.deviceIDs ≠ []) :
    ∃ hlt : ((n.currentDeviceIdx + 1) % UNSIGNED_MOD) % n.deviceIDs.length <
        n.deviceIDs.length,
      n.getNextDevice.1 =
        n.deviceIDs.get ⟨((n.currentDeviceIdx + 1) % UNSIGNED_MOD) % n.deviceIDs.length, hlt⟩ ∧
      n.getNextDevice.2.currentDeviceIdx = (n.currentDeviceIdx + 1) % UNSIGNED_MOD ∧
      n.getNextDevice.2.deviceIDs = n.deviceIDs ∧
      (n.currentDeviceIdx = 0 →
        n.getNextDevice.1 = n.deviceIDs.getD (1 % n.deviceIDs.length) 0) := by
  have hlen : 0 < n.deviceIDs.length := List.length_pos.mpr h
  have hlt : ((n.currentDeviceIdx + 1) % UNSIGNED_MOD) % n.deviceIDs.length <
      n.deviceIDs.length := Nat.mod_lt _ hlen
  refine ⟨hlt, ?_, rfl, rfl, ?_⟩
  · show n.deviceIDs.getD (((n.currentDeviceIdx + 1) % UNSIGNED_MOD) % n.deviceIDs.length) 0 = _
    rw [List.getD_eq_getElem _ _ hlt]
    simp [List.get_eq_getElem]
  · intro h0
    show n.deviceIDs.getD (((n.currentDeviceIdx + 1) % UNSIGNED_MOD) % n.deviceIDs.length) 0 = _
    rw [h0]
    norm_num [UNSIGNED_MOD]

/-- Witness for `getNextDevice_spec` at a concrete node. -/
theorem getNextDevice_spec_witness :
    ∃ hlt : ((4 + 1) % UNSIGNED_MOD) % ([5, 7, 9] : List Nat).length <
        ([5, 7, 9] : List Nat).length,
      (DAGNodeDev.getNextDevice { deviceIDs := [5, 7, 9], currentDeviceIdx := 4 }).1 =
        ([5, 7, 9] : List Nat).get ⟨((4 + 1) % UNSIGNED_MOD) % ([5, 7, 9] : List Nat).length, hlt⟩ ∧
      (DAGNodeDev.getNextDevice { deviceIDs := [5, 7, 9], currentDeviceIdx := 4 }).2.currentDeviceIdx =
        (4 + 1) % UNSIGNED_MOD ∧
      (DAGNodeDev.getNextDevice { deviceIDs := [5, 7, 9], currentDeviceIdx := 4 }).2.deviceIDs =
        [5, 7, 9] ∧
      ((4 : Nat) = 0 →
        (DAGNodeDev.getNextDevice { deviceIDs := [5, 7, 9], currentDeviceIdx := 4 }).1 =
          ([5, 7, 9] : List Nat).getD (1 % ([5, 7, 9] : List Nat).length) 0) :=
  getNextDevice_spec { deviceIDs := [5, 7, 9], currentDeviceIdx := 4 } (by decide)

/-- C3: `Partitioner::partition` picks exactly one mode by first match:
(1) `numOfPartitions > 0` selects `partitionFromConfig`; (2) otherwise
`quantMode == Profile` selects `quantizationProfilingPartition`; (3) otherwise
a single shared backend name plus the load-balance flag selects
`loadBalancedPartition`; (4) otherwise `heterogeneousPartition`.  The
`multiBackendNames_` flag is false exactly when every device shares the first
device's backend name, and `loadBalancedPartition` invoked with multiple
backend names delegates to `heterogeneousPartition`. -/
theorem partition_mode_selection (cfg : PartitionConfig) (qm : QuantizationMode)
    (devices : List DeviceInfo) (lbFlag : Bool) :
    (0 < cfg.numOfPartitions →
      partitionModeSelect cfg qm (multiBackendNames devices) lbFlag = .fromConfig) ∧
    (cfg.numOfPartitions = 0 → qm = .Profile →
      partitionModeSelect cfg qm (multiBackendNames devices) lbFlag = .profiling) ∧
    (cfg.numOfPartitions = 0 → qm ≠ .Profile → multiBackendNames devices = false →
      lbFlag = true →
      partitionModeSelect cfg qm (multiBackendNames devices) lbFlag = .loadBalanced) ∧
    (cfg.numOfPartitions = 0 → qm ≠ .Profile →
      ¬(multiBackendNames devices = false ∧ lbFlag = true) →
      partitionModeSelect cfg qm (multiBackendNames devices) lbFlag = .heterogeneous) ∧
    (∀ d0 ds, devices = d0 :: ds →
      (multiBackendNames devices = false ↔ ∀ d ∈ devices, d.backendName = d0.backendName)) ∧
    (multiBackendNames devices = true →
      loadBalancedDelegates (multiBackendNames devices) = .heterogeneous) := by
  refine ⟨?_, ?_, ?_, ?_, ?_, ?_⟩
  · intro h
    simp [partitionModeSelect, PartitionConfig.enabled, h]
  · intro h hq
    simp [partitionModeSelect, PartitionConfig.enabled, h, hq]
  · intro h hq hmb hlb
    simp [partitionModeSelect, PartitionConfig.enabled, h, hq, hmb, hlb]
  · intro h hq hmb
    rcases hb : multiBackendNames devices with _ | _
    · have hlb : lbFlag = false := by
        cases lbFlag
        · rfl
        · exact absurd ⟨rfl, rfl⟩ (hb ▸ hmb)
      simp [partitionModeSelect, PartitionConfig.enabled, h, hq, hlb]
    · simp [partitionModeSelect, PartitionConfig.enabled, h, hq]
  · intro d0 ds hdev
    subst hdev
    simp only [multiBackendNames, List.any_eq_false]
    constructor
    · intro hall d hd
      rcases List.mem_cons.mp hd with h | h
      · subst h; rfl
      · have := hall d h
        simpa using this
    · intro hall d hd
      have := hall d (List.mem_cons_of_mem d0 hd)
      simpa using this
  · intro hmb
    simp [loadBalancedDelegates, hmb]

/-- Witness for `partition_mode_selection`: an enabled config wins over
everything; with one device and the flag set, the disabled config picks the
load-balanced flow. -/
theorem partition_mode_selection_witness :
    partitionModeSelect cfgTwoParts .None (multiBackendNames [devA10]) false =
      .fromConfig ∧
    partitionModeSelect cfgDisabled .None (multiBackendNames [devA10]) true =
      .loadBalanced :=
  ⟨(partition_mode_selection cfgTwoParts .None [devA10] false).1 (by decide),
   (partition_mode_selection cfgDisabled .None [devA10] true).2.2.1 rfl (by decide)
     (by decide) rfl⟩

/-- C4: with `D` devices and `k = logicalDeviceCount`, if `D / k ≥ 2` then
`saturateHost` extends every DAGNode's `logicalDevices` so that it holds
exactly the old ids plus `L + i·k` for each old id `L` and each
`i ∈ [1, D / k)`; a node that started with exactly one logical device ends
with exactly `D / k`.  If `D / k < 2` the partitions are returned unchanged. -/
theorem saturateHost_spec (D k : Nat) (parts : List (List SatDAGNode)) :
    (D / k < 2 → saturateHost D k parts = parts) ∧
    (2 ≤ D / k →
      List.Forall₂ (fun net net2 => List.Forall₂ (fun nd nd2 =>
        (∀ x, x ∈ nd2.logicalDevices ↔
          (x ∈ nd.logicalDevices ∨
            ∃ l ∈ nd.logicalDevices, ∃ i, 1 ≤ i ∧ i < D / k ∧ x = l + i * k)) ∧
        (nd.logicalDevices.length = 1 → nd2.logicalDevices.length = D / k)) net net2)
        parts (saturateHost D k parts)) := by
  constructor
  · intro h
    simp [saturateHost, h]
  · intro h
    have hnot : ¬ D / k < 2 := by omega
    simp only [saturateHost, hnot, if_false]
    rw [List.forall₂_map_right_iff]
    rw [List.forall₂_same]
    intro net _hnet
    rw [List.forall₂_map_right_iff]
    rw [List.forall₂_same]
    intro nd _hnd
    constructor
    · intro x
      constructor
      · intro hx
        rcases List.mem_append.mp hx with hx | hx
        · exact Or.inl hx
        · rcases List.mem_flatMap.mp hx with ⟨l, hl, hx⟩
          rcases List.mem_map.mp hx with ⟨i, hi, hx⟩
          rcases List.mem_range'_1.mp hi with ⟨hi1, hi2⟩
          exact Or.inr ⟨l, hl, i, hi1, by omega, hx.symm⟩
      · intro hx
        rcases hx with hx | ⟨l, hl, i, hi1, hi2, hx⟩
        · exact List.mem_append.mpr (Or.inl hx)
        · refine List.mem_append.mpr (Or.inr ?_)
          refine List.mem_flatMap.mpr ⟨l, hl, ?_⟩
          exact List.mem_map.mpr ⟨i, List.mem_range'_1.mpr ⟨hi1, by omega⟩, hx.symm⟩
    · intro hone
      obtain ⟨a, ha⟩ : ∃ a, nd.logicalDevices = [a] := by
        cases hls : nd.logicalDevices with
        | nil => rw [hls] at hone; simp at hone
        | cons a tl =>
          cases tl with
          | nil => exact ⟨a, rfl⟩
          | cons b tl2 => rw [hls] at hone; simp at hone
      rw [ha]
      simp [saturatedDevices, List.length_range']
      omega

/-- Witness for `saturateHost_spec`: both branches at concrete inputs.  With
3 devices and 2 logical devices nothing changes; with 8 devices and 2 logical
devices each singleton node ends with 4 logical ids. -/
theorem saturateHost_spec_witness :
    (saturateHost 3 2 [[{ logicalDevices := [0] }]] = [[{ logicalDevices := [0] }]]) ∧
    List.Forall₂ (fun net net2 => List.Forall₂ (fun (nd nd2 : SatDAGNode) =>
        (∀ x, x ∈ nd2.logicalDevices ↔
          (x ∈ nd.logicalDevices ∨
            ∃ l ∈ nd.logicalDevices, ∃ i, 1 ≤ i ∧ i < 8 / 2 ∧ x = l + i * 2)) ∧
        (nd.logicalDevices.length = 1 → nd2.logicalDevices.length = 8 / 2)) net net2)
      [[{ logicalDevices := [0] }, { logicalDevices := [1] }]]
      (saturateHost 8 2 [[{ logicalDevices := [0] }, { logicalDevices := [1] }]]) :=
  ⟨(saturateHost_spec 3 2 [[{ logicalDevices := [0] }]]).1 (by decide),
   (saturateHost_spec 8 2 [[{ logicalDevices := [0] }, { logicalDevices := [1] }]]).2
     (by decide)⟩

theorem chooseBackend_eq_find (bmap : String → BackendKindInfo)
    (backends : List BackendM) (N : NodeK) :
    chooseBackend bmap backends N =
      backends.find? (fun b => backendAccepts bmap b N) := by
  induction backends with
  | nil => rfl
  | cons b bs ih =>
    simp only [chooseBackend]
    by_cases h1 : ((bmap b.name).nonSupportedNodesKinds.contains N.kind) = true
    · rw [if_pos h1, ih, List.find?_cons_of_neg]
      intro hacc
      simp only [backendAccepts, h1, Bool.not_true, Bool.false_and,
        Bool.false_eq_true] at hacc
    · rw [if_neg h1]
      by_cases h2 : (!(bmap b.name).supportedNodesKinds.isEmpty &&
          !((bmap b.name).supportedNodesKinds.contains N.kind)) = true
      · rw [if_pos h2, ih, List.find?_cons_of_neg]
        intro hacc
        simp only [Bool.and_eq_true, Bool.not_eq_true'] at h2
        simp only [backendAccepts, h2.1, h2.2, Bool.or_false, Bool.and_false,
          Bool.false_and, Bool.false_eq_true] at hacc
      · rw [if_neg h2]
        have h1f : (bmap b.name).nonSupportedNodesKinds.contains N.kind = false :=
          eq_false_of_ne_true h1
        by_cases h3 : (b.shouldLowerP N || b.isOpSupportedP N) = true
        · rw [if_pos h3, List.find?_cons_of_pos]
          show backendAccepts bmap b N = true
          have h2f : ((bmap b.name).supportedNodesKinds.isEmpty ||
              (bmap b.name).supportedNodesKinds.contains N.kind) = true := by
            rcases hw : (bmap b.name).supportedNodesKinds.isEmpty with _ | _
            · rcases hk : (bmap b.name).supportedNodesKinds.contains N.kind with _ | _
              · exact absurd (by rw [hw, hk]; rfl) h2
              · rfl
            · exact Bool.true_or _
          unfold backendAccepts
          rw [h1f, h2f, h3]
          rfl
        · rw [if_neg h3, ih, List.find?_cons_of_neg]
          intro hacc
          have : (b.shouldLowerP N || b.isOpSupportedP N) = true := by
            simp only [backendAccepts, Bool.and_eq_true] at hacc
            exact hacc.2
          exact h3 this

/-- C5: in `backendBasedPartition` every node is assigned the first backend,
in declared order, whose blacklist misses the node's kind, whose whitelist is
empty or holds the kind, and which lowers the node or reports it supported;
the loop errors with `NodeNotSupported` exactly when some node has no such
backend (and succeeds exactly when every node has one). -/
theorem backendBasedPartition_node_assignment (bmap : String → BackendKindInfo)
    (backends : List BackendM) (nodes : List NodeK) :
    (∀ N, chooseBackend bmap backends N =
      backends.find? (fun b => backendAccepts bmap b N)) ∧
    ((∃ asg, assignBackends bmap backends nodes = .ok asg) ↔
      ∀ N ∈ nodes, ∃ b ∈ backends, backendAccepts bmap b N = true) ∧
    (∀ asg, assignBackends bmap backends nodes = .ok asg →
      List.Forall₂ (fun N p => p.1 = N ∧
        ∃ b, backends.find? (fun b2 => backendAccepts bmap b2 N) = some b ∧ p.2 = b.name)
        nodes asg) ∧
    ((assignBackends bmap backends nodes = .error .NodeNotSupported) ↔
      ∃ N ∈ nodes, ∀ b ∈ backends, backendAccepts bmap b N = false) := by
  refine ⟨chooseBackend_eq_find bmap backends, ?_, ?_, ?_⟩
  · induction nodes with
    | nil =>
      constructor
      · intro _ N hN
        exact absurd hN (List.not_mem_nil N)
      · intro _
        exact ⟨[], rfl⟩
    | cons N ns ih =>
      simp only [assignBackends]
      cases hc : chooseBackend bmap backends N with
      | none =>
        rw [chooseBackend_eq_find] at hc
        constructor
        · rintro ⟨asg, hasg⟩; cases hasg
        · intro hall
          rcases hall N (List.mem_cons_self N ns) with ⟨b, hb, hacc⟩
          have := List.find?_eq_none.mp hc b hb
          simp [hacc] at this
      | some b =>
        rw [chooseBackend_eq_find] at hc
        constructor
        · rintro ⟨asg, hasg⟩
          intro M hM
          rcases List.mem_cons.mp hM with h | h
          · subst h
            have hp := List.find?_some hc
            exact ⟨b, List.mem_of_find?_eq_some hc, by simpa using hp⟩
          · cases hrec : assignBackends bmap backends ns with
            | ok rest => exact (ih.mp ⟨rest, hrec⟩) M h
            | error e => rw [hrec] at hasg; cases hasg
        · intro hall
          have hns : ∀ M ∈ ns, ∃ b2 ∈ backends, backendAccepts bmap b2 M = true :=
            fun M hM => hall M (List.mem_cons_of_mem N hM)
          rcases ih.mpr hns with ⟨rest, hrest⟩
          exact ⟨(N, b.name) :: rest, by rw [hrest]⟩
  · induction nodes with
    | nil =>
      intro asg hasg
      cases hasg
      exact List.Forall₂.nil
    | cons N ns ih =>
      intro asg hasg
      simp only [assignBackends] at hasg
      cases hc : chooseBackend bmap backends N with
      | none => rw [hc] at hasg; cases hasg
      | some b =>
        rw [hc] at hasg
        cases hrec : assignBackends bmap backends ns with
        | error e => rw [hrec] at hasg; cases hasg
        | ok rest =>
          rw [hrec] at hasg
          cases hasg
          refine List.Forall₂.cons ⟨rfl, b, ?_, rfl⟩ (ih rest hrec)
          rw [← chooseBackend_eq_find]
          exact hc
  · induction nodes with
    | nil =>
      simp only [assignBackends]
      constructor
      · intro h; cases h
      · rintro ⟨N, hN, _⟩; cases hN
    | cons N ns ih =>
      simp only [assignBackends]
      cases hc : chooseBackend bmap backends N with
      | none =>
        rw [chooseBackend_eq_find] at hc
        constructor
        · intro _
          refine ⟨N, List.mem_cons_self N ns, fun b hb => ?_⟩
          have := List.find?_eq_none.mp hc b hb
          simpa using this
        · intro _; rfl
      | some b =>
        rw [chooseBackend_eq_find] at hc
        cases hrec : assignBackends bmap backends ns with
        | ok rest =>
          constructor
          · intro h; cases h
          · rintro ⟨M, hM, hall⟩
            rcases List.mem_cons.mp hM with h | h
            · subst h
              have := hall b (List.mem_of_find?_eq_some hc)
              rw [List.find?_some hc] at this
              cases this
            · have : assignBackends bmap backends ns = .error .NodeNotSupported :=
                ih.mpr ⟨M, h, hall⟩
              rw [hrec] at this
              cases this
        | error e =>
          have he : e = PartErr.NodeNotSupported := by cases e; rfl
          subst he
          constructor
          · intro _
            rcases ih.mp hrec with ⟨M, hM, hall⟩
            exact ⟨M, List.mem_cons_of_mem N hM, hall⟩
          · intro _; rfl

/-- Witness for `backendBasedPartition_node_assignment`: one backend that
lowers everything, one node; the assignment succeeds and pairs the node with
that backend. -/
theorem backendBasedPartition_node_assignment_witness :
    List.Forall₂ (fun (N : NodeK) (p : NodeK × String) => p.1 = N ∧
        ∃ b, List.find? (fun b2 => backendAccepts (fun _ => emptyKindInfo) b2 N)
            [lowerAllBackend] = some b ∧ p.2 = b.name)
      [{ kind := 0 }] [({ kind := 0 }, "A")] :=
  (backendBasedPartition_node_assignment (fun _ => emptyKindInfo)
      [lowerAllBackend] [{ kind := 0 }]).2.2.1 [({ kind := 0 }, "A")] rfl

/-- C7: `CompilationContext::verify` succeeds iff the whitelist flag implies
`convertToFP16`, Profile mode has `bindings` and `loweredInfoMap` set and
`convertToFP16` off, and Quantize mode has `loweredInfoMap` set (None imposes
nothing further); every failure carries `CompileContextMalformed`. -/
theorem compilationContext_verify_spec (cctx : CompilationContext) :
    (cctx.verify = .ok () ↔
      ((cctx.precisionConfig.useSetAsWhitelist = true →
          cctx.precisionConfig.convertToFP16 = true) ∧
       (cctx.precisionConfig.quantMode = .Profile →
          cctx.bindings = true ∧ cctx.loweredInfoMap = true ∧
          cctx.precisionConfig.convertToFP16 = false) ∧
       (cctx.precisionConfig.quantMode = .Quantize → cctx.loweredInfoMap = true))) ∧
    (∀ e, cctx.verify = .error e → e = .CompileContextMalformed) := by
  obtain ⟨bnd, lim, pc⟩ := cctx
  obtain ⟨qm, fp16, ffp16, clip, wl⟩ := pc
  cases qm <;> cases bnd <;> cases lim <;> cases fp16 <;> cases ffp16 <;> cases clip <;>
    cases wl <;> decide

/-- Witness for `compilationContext_verify_spec`: a Profile-mode context with
`bindings` unset fails verification, with `CompileContextMalformed`. -/
theorem compilationContext_verify_spec_witness :
    (CompilationContext.verify profileNoBindingsCtx = .error .CompileContextMalformed) ∧
    GlowErrCode.CompileContextMalformed = GlowErrCode.CompileContextMalformed :=
  ⟨by decide,
   (compilationContext_verify_spec profileNoBindingsCtx).2
     .CompileContextMalformed (by decide)⟩

theorem selStep_eq_pos (avail : Nat) (upd : List ν → μ → ν → μ) (total : μ → Nat)
    (emptyMem : μ) (st : SelState ν μ) (N : ν)
    (h : avail < total (upd st.currentPartition st.graphMem N)) :
    selStep avail upd total emptyMem st N =
      { color := st.color + 1
        currentPartition := [N]
        graphMem := upd [] emptyMem N
        assignments := st.assignments ++ [(N, st.color + 1)] } := by
  simp only [selStep]
  rw [if_pos h]

theorem selStep_eq_neg (avail : Nat) (upd : List ν → μ → ν → μ) (total : μ → Nat)
    (emptyMem : μ) (st : SelState ν μ) (N : ν)
    (h : ¬ avail < total (upd st.currentPartition st.graphMem N)) :
    selStep avail upd total emptyMem st N =
      { color := st.color
        currentPartition := N :: st.currentPartition
        graphMem := upd st.currentPartition st.graphMem N
        assignments := st.assignments ++ [(N, st.color)] } := by
  simp only [selStep]
  rw [if_neg h]

theorem selStep_assignments (avail : Nat) (upd : List ν → μ → ν → μ) (total : μ → Nat)
    (emptyMem : μ) (st : SelState ν μ) (N : ν) :
    (selStep avail upd total emptyMem st N).assignments =
      st.assignments ++ [(N, (selStep avail upd total emptyMem st N).color)] ∧
    st.color ≤ (selStep avail upd total emptyMem st N).color ∧
    (selStep avail upd total emptyMem st N).color ≤ st.color + 1 := by
  unfold selStep
  by_cases h : avail < total (upd st.currentPartition st.graphMem N) <;>
    simp [h]

theorem selFold_map_fst (avail : Nat) (upd : List ν → μ → ν → μ) (total : μ → Nat)
    (emptyMem : μ) (l : List ν) (st : SelState ν μ) :
    ((l.foldl (selStep avail upd total emptyMem) st).assignments).map Prod.fst =
      st.assignments.map Prod.fst ++ l := by
  induction l generalizing st with
  | nil => simp
  | cons N ns ih =>
    rw [List.foldl_cons, ih]
    rw [(selStep_assignments avail upd total emptyMem st N).1]
    simp

theorem selFold_inv (avail : Nat) (upd : List ν → μ → ν → μ) (total : μ → Nat)
    (emptyMem : μ) (l : List ν) (st : SelState ν μ)
    (h1 : 1 ≤ st.color)
    (h2 : ∀ p ∈ st.assignments, 1 ≤ p.2 ∧
      p.2 ≤ (l.foldl (selStep avail upd total emptyMem) st).color) :
    1 ≤ (l.foldl (selStep avail upd total emptyMem) st).color ∧
    ∀ p ∈ (l.foldl (selStep avail upd total emptyMem) st).assignments,
      1 ≤ p.2 ∧ p.2 ≤ (l.foldl (selStep avail upd total emptyMem) st).color := by
  induction l generalizing st with
  | nil => exact ⟨h1, h2⟩
  | cons N ns ih =>
    rw [List.foldl_cons] at *
    obtain ⟨heq, hle1, _⟩ := selStep_assignments avail upd total emptyMem st N
    refine ih (selStep avail upd total emptyMem st N) (by omega) ?_
    intro p hp
    rw [heq] at hp
    rcases List.mem_append.mp hp with hp | hp
    · exact h2 p hp
    · rcases List.mem_singleton.mp hp with rfl
      have hmono : (selStep avail upd total emptyMem st N).color ≤
          (ns.foldl (selStep avail upd total emptyMem)
            (selStep avail upd total emptyMem st N)).color := by
        clear hp heq ih h2
        generalize selStep avail upd total emptyMem st N = st2
        induction ns generalizing st2 with
        | nil => exact Nat.le_refl _
        | cons M ms ih2 =>
          rw [List.foldl_cons]
          exact Nat.le_trans
            (selStep_assignments avail upd total emptyMem st2 M).2.1
            (ih2 _)
      exact ⟨by omega, hmono⟩

/-- C6: `selectPartitions` walks BFS levels from leaves to roots; each node is
recorded in exactly one partition, in processing order (the assignment keys
are precisely the nodes, leaves-level first); partition indices `k` start at 1
and stay within `[1, final color]`; and at every node `N` of the processing
sequence, a new partition `k+1` is opened (node set cleared, memory recomputed
against an empty partition) exactly when the tentative total with `N` added
exceeds `availableMemory`, otherwise `N` joins the current partition `k`. -/
theorem selectPartitions_spec (avail : Nat) (upd : List ν → μ → ν → μ)
    (total : μ → Nat) (emptyMem : μ) (bfs : List (List ν)) :
    (((selectPartitions avail upd total emptyMem bfs).assignments).map Prod.fst =
      bfs.reverse.flatten) ∧
    (1 ≤ (selectPartitions avail upd total emptyMem bfs).color ∧
      ∀ p ∈ (selectPartitions avail upd total emptyMem bfs).assignments,
        1 ≤ p.2 ∧ p.2 ≤ (selectPartitions avail upd total emptyMem bfs).color) ∧
    (∀ l1 N l2, bfs.reverse.flatten = l1 ++ N :: l2 →
      ((avail < total (upd
          (l1.foldl (selStep avail upd total emptyMem) (selInitState emptyMem)).currentPartition
          (l1.foldl (selStep avail upd total emptyMem) (selInitState emptyMem)).graphMem N) →
        ((l1 ++ [N]).foldl (selStep avail upd total emptyMem) (selInitState emptyMem)) =
          { color := (l1.foldl (selStep avail upd total emptyMem)
              (selInitState emptyMem)).color + 1
            currentPartition := [N]
            graphMem := upd [] emptyMem N
            assignments := (l1.foldl (selStep avail upd total emptyMem)
                (selInitState emptyMem)).assignments ++
              [(N, (l1.foldl (selStep avail upd total emptyMem)
                (selInitState emptyMem)).color + 1)] }) ∧
       (¬ avail < total (upd
          (l1.foldl (selStep avail upd total emptyMem) (selInitState emptyMem)).currentPartition
          (l1.foldl (selStep avail upd total emptyMem) (selInitState emptyMem)).graphMem N) →
        ((l1 ++ [N]).foldl (selStep avail upd total emptyMem) (selInitState emptyMem)) =
          { color := (l1.foldl (selStep avail upd total emptyMem)
              (selInitState emptyMem)).color
            currentPartition := N :: (l1.foldl (selStep avail upd total emptyMem)
              (selInitState emptyMem)).currentPartition
            graphMem := upd
              (l1.foldl (selStep avail upd total emptyMem)
                (selInitState emptyMem)).currentPartition
              (l1.foldl (selStep avail upd total emptyMem)
                (selInitState emptyMem)).graphMem N
            assignments := (l1.foldl (selStep avail upd total emptyMem)
                (selInitState emptyMem)).assignments ++
              [(N, (l1.foldl (selStep avail upd total emptyMem)
                (selInitState emptyMem)).color)] }))) := by
  refine ⟨?_, ?_, ?_⟩
  · rw [selectPartitions, selFold_map_fst]
    simp [selInitState]
  · rw [selectPartitions]
    exact selFold_inv avail upd total emptyMem _ _ (by simp [selInitState])
      (by simp [selInitState])
  · intro l1 N l2 _
    rw [List.foldl_append]
    rw [List.foldl_cons, List.foldl_nil]
    exact ⟨selStep_eq_pos avail upd total emptyMem _ N,
      selStep_eq_neg avail upd total emptyMem _ N⟩

/-- Witness for `selectPartitions_spec`, with nodes and memory tallies both
naturals, `upd` accumulating node sizes and a budget of 5: processing `[4, 3]`
overflows on the second node and opens partition 2. -/
theorem selectPartitions_spec_witness :
    (((selectPartitions 5 (fun _ m n => m + n) id 0 [[4, 3]]).assignments).map Prod.fst =
      ([[4, 3]] : List (List Nat)).reverse.flatten) ∧
    (([4] ++ [3]).foldl (selStep 5 (fun _ m n => m + n) id 0) (selInitState 0)) =
      { color := (([4] : List Nat).foldl (selStep 5 (fun _ m n => m + n) id 0)
          (selInitState 0)).color + 1
        currentPartition := [3]
        graphMem := (fun (_ : List Nat) (m n : Nat) => m + n) [] 0 3
        assignments := (([4] : List Nat).foldl (selStep 5 (fun _ m n => m + n) id 0)
            (selInitState 0)).assignments ++
          [(3, (([4] : List Nat).foldl (selStep 5 (fun _ m n => m + n) id 0)
            (selInitState 0)).color + 1)] } :=
  ⟨(selectPartitions_spec 5 (fun _ m n => m + n) id 0 [[4, 3]]).1,
   ((selectPartitions_spec 5 (fun _ m n => m + n) id 0 [[4, 3]]).2.2 [4] 3 [] rfl).1
     (by decide)⟩

/-- C8 (counterexample): with host saturation requested and two devices of the
single backend, the child node of the DAG built by `createDAGWithoutPartition`
carries `logicalDevices = [0, 1]`, not `[0]` as the claim states (the root
keeps `[0]`). -/
theorem createDAGWithoutPartition_counterexample :
    (createDAGWithoutPartition "A" ["f"] true 2).map
        (fun g => (g.root.logicalDevices, g.nodes.map CDAGNode.logicalDevices)) =
      [([0], [[0, 1]])] ∧ ([0, 1] : List Nat) ≠ [0] := by
  constructor
  · rfl
  · decide

/-- C8 (amended): when exactly one backend is present and the module's
estimated size is below that backend's memory, the heterogeneous flow takes
the no-partition fast path, and — provided host saturation is not requested
or fewer than two devices are present — each Function yields a DAG whose
synthetic root bears the Function's name, no backend and `logicalDevices =
[0]`, with exactly one child carrying the whole Function on the chosen
backend, also with `logicalDevices = [0]`. -/
theorem createDAGWithoutPartition_spec (backendName : String) (fnames : List String)
    (satFlag : Bool) (D : Nat) (h : satFlag = false ∨ D < 2) :
    (∀ cnt m M : Nat,
      heterogeneousNoPartitionGuard cnt m M = true ↔ (cnt = 1 ∧ m < M)) ∧
    List.Forall₂ (fun fname (g : CDAG) =>
        g.root.name = fname ∧ g.root.backendName = "" ∧ g.root.logicalDevices = [0] ∧
        ∃ child, g.nodes = [child] ∧ child.name = fname ∧
          child.backendName = backendName ∧ child.logicalDevices = [0])
      fnames (createDAGWithoutPartition backendName fnames satFlag D) := by
  constructor
  · intro cnt m M
    simp [heterogeneousNoPartitionGuard]
  · have hres : createDAGWithoutPartition backendName fnames satFlag D =
        fnames.map (fun fname =>
          { root := { name := fname, backendName := "", logicalDevices := [0] }
            nodes :=
              [{ name := fname, backendName := backendName, logicalDevices := [0] }] }) := by
      rcases h with h | h
      · rw [createDAGWithoutPartition, h]
        rfl
      · rw [createDAGWithoutPartition]
        have hd : D / 1 < 2 := by omega
        cases satFlag
        · rfl
        · simp only [if_true, saturateHostDAG]
          rw [if_pos hd]
    rw [hres]
    rw [List.forall₂_map_right_iff]
    rw [List.forall₂_same]
    intro fname _
    exact ⟨rfl, rfl, rfl, _, rfl, rfl, rfl, rfl⟩

/-- Witness for `createDAGWithoutPartition_spec` without saturation. -/
theorem createDAGWithoutPartition_spec_witness :
    (∀ cnt m M : Nat,
      heterogeneousNoPartitionGuard cnt m M = true ↔ (cnt = 1 ∧ m < M)) ∧
    List.Forall₂ (fun fname (g : CDAG) =>
        g.root.name = fname ∧ g.root.backendName = "" ∧ g.root.logicalDevices = [0] ∧
        ∃ child, g.nodes = [child] ∧ child.name = fname ∧
          child.backendName = "A" ∧ child.logicalDevices = [0])
      ["f"] (createDAGWithoutPartition "A" ["f"] false 5) :=
  createDAGWithoutPartition_spec "A" ["f"] false 5 (Or.inl rfl)

/-- C9: when `partitionConfig.funcName` names no Function of the module, the
lookup guard of `partitionFromConfig` does not return the claimed
FunctionNotFound error: its error path dereferences the null `F` while
formatting the message, leaving the behaviour undefined (modelled by `none`);
shown at the concrete failing input of an empty module and
`funcName = "main"`. -/
theorem partitionFromConfig_missing_function :
    partitionFromConfigLookup []
        { funcName := "main", numOfPartitions := 2, backendNames := ["A", "B"],
          partitionNames := ["p0", "p1"] } = none ∧
    (∀ functions cfg, getFunction functions cfg.funcName = none →
      partitionFromConfigLookup functions cfg = none) := by
  constructor
  · rfl
  · intro functions cfg h
    simp [partitionFromConfigLookup, h]

/-- Witness for `partitionFromConfig_missing_function`'s universally
quantified part at a concrete module and config. -/
theorem partitionFromConfig_missing_function_witness :
    partitionFromConfigLookup ["g"]
        { funcName := "main", numOfPartitions := 0, backendNames := [],
          partitionNames := [] } = none :=
  partitionFromConfig_missing_function.2 ["g"]
    { funcName := "main", numOfPartitions := 0, backendNames := [],
      partitionNames := [] } (by decide)

theorem genFold_lookup (gen : String → List Nat) (ds : List DeviceInfo)
    (acc : String → Option BackendInfo) (b : String) :
    List.foldl (genStepF gen) acc ds b =
      match acc b with
      | some info =>
        some { info with num := info.num + ds.countP (fun d => d.backendName == b) }
      | none =>
        match ds.find? (fun d => d.backendName == b) with
        | some d0 =>
          some { mkBackendInfo gen d0 with
                   num := ds.countP (fun d => d.backendName == b) }
        | none => none := by
  induction ds generalizing acc with
  | nil =>
    cases hacc : acc b with
    | none => simp [hacc]
    | some info => simp [hacc]
  | cons d ds ih =>
    rw [List.foldl_cons, ih]
    by_cases hdb : d.backendName = b
    · have hbeq : (d.backendName == b) = true := beq_iff_eq.mpr hdb
      have hcount : (d :: ds).countP (fun d2 => d2.backendName == b) =
          ds.countP (fun d2 => d2.backendName == b) + 1 := by
        rw [List.countP_cons]
        simp [hbeq]
      cases hacc : acc b with
      | some info =>
        have hstep : genStepF gen acc d b = some { info with num := info.num + 1 } := by
          unfold genStepF
          rw [hdb, hacc]
          simp [hdb.symm]
        rw [hstep, hcount]
        have : info.num + 1 + List.countP (fun d2 => d2.backendName == b) ds =
            info.num + (List.countP (fun d2 => d2.backendName == b) ds + 1) := by omega
        simp [this]
      | none =>
        have hstep : genStepF gen acc d b = some (mkBackendInfo gen d) := by
          unfold genStepF
          rw [hdb, hacc]
          simp [hdb.symm]
        have hfind : List.find? (fun d2 => d2.backendName == b) (d :: ds) = some d := by
          rw [List.find?_cons_of_pos]
          exact hbeq
        rw [hstep, hcount, hfind]
        simp [mkBackendInfo, Nat.add_comm]
    · have hbeq : (d.backendName == b) = false := by
        simpa using hdb
      have hcount : (d :: ds).countP (fun d2 => d2.backendName == b) =
          ds.countP (fun d2 => d2.backendName == b) := by
        rw [List.countP_cons]
        simp [hbeq]
      have hstep : genStepF gen acc d b = acc b := by
        unfold genStepF
        cases hacc2 : acc d.backendName with
        | some info => exact if_neg (fun hh => hdb hh.symm)
        | none => exact if_neg (fun hh => hdb hh.symm)
      have hfind : List.find? (fun d2 => d2.backendName == b) (d :: ds) =
          List.find? (fun d2 => d2.backendName == b) ds := by
        rw [List.find?_cons_of_neg]
        simp [hbeq]
      rw [hstep, hcount, hfind]

/-- C10: for every backend name `b` among the `DeviceInfo`s, `genBackendMap`
yields a `BackendInfo` whose `num` is the number of devices with that name,
while `memSize`, `sramCapacity`, `peakCompute`, the two bandwidth fields and
the supported / non-supported kind sets come solely from the first
`DeviceInfo` with that name — later devices of the same backend contribute
only to the count; names with no device map to nothing. -/
theorem genBackendMap_spec (gen : String → List Nat) (devices : List DeviceInfo)
    (b : String) :
    (∀ d0, devices.find? (fun d => d.backendName == b) = some d0 →
      genBackendMap gen devices b =
        some { mkBackendInfo gen d0 with
                 num := devices.countP (fun d => d.backendName == b) }) ∧
    (devices.find? (fun d => d.backendName == b) = none →
      genBackendMap gen devices b = none) := by
  constructor
  · intro d0 hfind
    rw [genBackendMap, genFold_lookup, hfind]
  · intro hfind
    rw [genBackendMap, genFold_lookup, hfind]

/-- Witness for `genBackendMap_spec`: with two "A" devices whose fields
differ, the map entry for "A" counts both but copies every other field from
the first. -/
theorem genBackendMap_spec_witness :
    genBackendMap (fun _ => []) [devA10, devA99] "A" =
      some { mkBackendInfo (fun _ => []) devA10 with
               num := List.countP (fun d => d.backendName == "A") [devA10, devA99] } :=
  (genBackendMap_spec (fun _ => []) [devA10, devA99] "A").1 devA10 (by decide)

end GlowRT
